import Mathlib

/-!
Verification of the city-scrapers-kancit normalization logic.

This file shallowly embeds the record-normalization code of the repository
(the Legistar mixin `city_scrapers/mixins/kancit_missouricity.py`, the
CivicClerk mixin `city_scrapers/mixins/wycokck.py`, and the spiders
`kancit_missouricity.py` / `colgo_wycokck_bocc.py`) as executable Lean
definitions, and proves or refutes the frozen specification claims about it.

Python strings are modelled as Lean `String`s; the Python string operations
used by the code (`strip`, `lower`, `split("\n")`, substring containment,
`isdigit`, the specific regular expressions appearing in the source) are
implemented character-by-character below, restricted to ASCII where Python
is Unicode-aware (all data handled by the claims is ASCII).
-/

/-! ## Python string primitives -/

/-- The whitespace characters of Python's `str.strip()` / regex `\s` (ASCII). -/
def isPySpace (c : Char) : Bool :=
  c = ' ' || c = '\t' || c = '\n' || c = '\r' || c = '\x0b' || c = '\x0c'

/-- ASCII lower-casing of a character, as Python `str.lower()` does on ASCII. -/
def pyLowerChar (c : Char) : Char :=
  if 'A' ≤ c && c ≤ 'Z' then Char.ofNat (c.toNat + 32) else c

/-- Python `str.lower()` (ASCII fragment). -/
def pyLower (s : String) : String :=
  String.mk (s.data.map pyLowerChar)

/-- `str.strip()` on a character list. -/
def pyStripList (l : List Char) : List Char :=
  ((l.dropWhile isPySpace).reverse.dropWhile isPySpace).reverse

/-- Python `str.strip()`. -/
def pyStrip (s : String) : String :=
  String.mk (pyStripList s.data)

/-- Exact prefix test on character lists. -/
def chStartsWith : List Char → List Char → Bool
  | [], _ => true
  | _ :: _, [] => false
  | c :: n, d :: h => c = d && chStartsWith n h

/-- Python substring containment `needle in hay` on character lists. -/
def chContains (n : List Char) : List Char → Bool
  | [] => n.isEmpty
  | c :: t => chStartsWith n (c :: t) || chContains n t

/-- Python substring containment `needle in hay` on strings. -/
def pyContains (needle hay : String) : Bool :=
  chContains needle.data hay.data

/-- Python `str.split("\n")`. -/
def splitNl : List Char → List (List Char)
  | [] => [[]]
  | c :: t =>
    if c = '\n' then [] :: splitNl t
    else
      match splitNl t with
      | h :: r => (c :: h) :: r
      | [] => [[c]]

/-- Python `str.isdigit()` (ASCII fragment): non-empty and all digits. -/
def pyIsDigit (s : String) : Bool :=
  !s.data.isEmpty && s.data.all Char.isDigit

/-- Python `int(...)` on a digit string. -/
def digitsToNat (l : List Char) : Nat :=
  l.foldl (fun a c => a * 10 + (c.toNat - 48)) 0

/-- Case-insensitive literal match: strips `word` (given in lower case) from
the front of `l`, comparing lower-cased characters; returns the rest. -/
def stripWordCI (word : List Char) (l : List Char) : Option (List Char) :=
  match word, l with
  | [], _ => some l
  | _ :: _, [] => none
  | w :: ws, c :: cs => if pyLowerChar c = w then stripWordCI ws cs else none

/-! ## Regular-expression fragments appearing in the source -/

/-- Character class `[\s-]` of the phone-number regex. -/
def isSepChar (c : Char) : Bool := isPySpace c || c = '-'

/-- Both ways to consume an optional single character matching `p`
(the two branches a backtracking regex engine would try). -/
def optChar (p : Char → Bool) (l : List Char) : List (List Char) :=
  match l with
  | [] => [[]]
  | c :: t => if p c then [c :: t, t] else [c :: t]

/-- Consume exactly `n` digits. -/
def takeDigits : Nat → List Char → Option (List Char)
  | 0, l => some l
  | _ + 1, [] => none
  | n + 1, c :: t => if c.isDigit then takeDigits n t else none

/-- `re.match(r"^\+?1?[\s-]?\d{3}[\s-]?\d{3}[\s-]?\d{4}", s)`:
the phone-number prefix test used by `_parse_location` and
`_clean_location_string` in `kancit_missouricity.py`. -/
def phoneMatch (l : List Char) : Bool :=
  (optChar (· = '+') l).any fun l1 =>
    (optChar (· = '1') l1).any fun l2 =>
      (optChar isSepChar l2).any fun l3 =>
        match takeDigits 3 l3 with
        | none => false
        | some l4 =>
          (optChar isSepChar l4).any fun l5 =>
            match takeDigits 3 l5 with
            | none => false
            | some l6 =>
              (optChar isSepChar l6).any fun l7 => (takeDigits 4 l7).isSome

/-- `re.search(r"(\d{5}(-\d{4})?)", s)` succeeds iff the text contains five
consecutive digits (the optional `-\d{4}` tail never affects existence). -/
def zipSearchL : List Char → Bool
  | [] => false
  | c :: t => (takeDigits 5 (c :: t)).isSome || zipSearchL t

/-- ZIP-shaped-substring search on strings. -/
def zipSearch (s : String) : Bool := zipSearchL s.data

/-- `re.search(r"conference\s*(id|no|number)", line, re.IGNORECASE)`. -/
def confIdSearch : List Char → Bool
  | [] => false
  | c :: t =>
    (match stripWordCI "conference".data (c :: t) with
     | some rest =>
       let r := rest.dropWhile isPySpace
       (stripWordCI "id".data r).isSome || (stripWordCI "no".data r).isSome ||
         (stripWordCI "number".data r).isSome
     | none => false) ||
    confIdSearch t

/-- After the alternative word of the meeting-id regex: `\s*:`. -/
def wsColon (l : List Char) : Bool :=
  match l.dropWhile isPySpace with
  | ':' :: _ => true
  | _ => false

/-- `re.search(r"(meeting\s*id|passcode|password)\s*:", line, re.IGNORECASE)`. -/
def meetingIdSearch : List Char → Bool
  | [] => false
  | c :: t =>
    (match stripWordCI "meeting".data (c :: t) with
     | some rest =>
       match stripWordCI "id".data (rest.dropWhile isPySpace) with
       | some r2 => wsColon r2
       | none => false
     | none => false) ||
    (match stripWordCI "passcode".data (c :: t) with
     | some r => wsColon r
     | none => false) ||
    (match stripWordCI "password".data (c :: t) with
     | some r => wsColon r
     | none => false) ||
    meetingIdSearch t

/-- `re.match(r"https?://", line, re.IGNORECASE)`. -/
def urlMatch (l : List Char) : Bool :=
  (stripWordCI "http://".data l).isSome || (stripWordCI "https://".data l).isSome

/-- Tail of the trailing-suffix regex after the first word group:
`\s*(meeting|session)?\s*$`. -/
def suffixAfterW1 (l : List Char) : Bool :=
  let r := l.dropWhile isPySpace
  r.all isPySpace ||
    (match stripWordCI "meeting".data r with
     | some r2 => r2.all isPySpace
     | none => false) ||
    (match stripWordCI "session".data r with
     | some r2 => r2.all isPySpace
     | none => false)

/-- Does `re.sub`'s pattern
`\s+(board|committee|commission)?\s*(meeting|session)?\s*$` (IGNORECASE)
match at this position and run to the end of the string? -/
def suffixPat (l : List Char) : Bool :=
  match l with
  | [] => false
  | c :: t =>
    isPySpace c &&
      (let r := t.dropWhile isPySpace
       suffixAfterW1 r ||
         (match stripWordCI "board".data r with
          | some r2 => suffixAfterW1 r2
          | none => false) ||
         (match stripWordCI "committee".data r with
          | some r2 => suffixAfterW1 r2
          | none => false) ||
         (match stripWordCI "commission".data r with
          | some r2 => suffixAfterW1 r2
          | none => false))

/-- `re.sub(r"\s+(board|committee|commission)?\s*(meeting|session)?\s*$", "", s)`:
removes the leftmost (hence, since the pattern is end-anchored, the unique)
match, which always extends to the end of the string. -/
def subTrailingSuffix : List Char → List Char
  | [] => []
  | c :: t => if suffixPat (c :: t) then [] else c :: subTrailingSuffix t

/-! ## Field values of the Legistar table extractor

A cell of the extracted event dictionary holds either plain text, a
`{"label": ..., "url": ...}` link descriptor, or a `{"url": ...}` descriptor
(the renamed iCalendar column). Missing keys are `none` (the defaultdict
default / `.get` miss). -/

inductive FieldVal where
  | text (s : String)
  | link (label url : String)
  | ical (url : String)
  deriving DecidableEq

/-- The fields of one extracted Legistar event dictionary that the
normalization code reads (`defaultdict` built by `_parse_legistar_events`). -/
structure LegistarItem where
  name : Option FieldVal := none
  meetingDate : Option FieldVal := none
  meetingTime : Option FieldVal := none
  meetingLocation : Option FieldVal := none
  agenda : Option FieldVal := none
  minutes : Option FieldVal := none
  iCalendar : Option FieldVal := none
  video : Option FieldVal := none
  audio : Option FieldVal := none
  deriving DecidableEq

/-- A `{"href": ..., "title": ...}` entry of a Meeting's links list. -/
structure Link where
  href : String
  title : String
  deriving DecidableEq

/-- A `{"name": ..., "address": ...}` location dictionary. -/
structure Location where
  locName : String
  address : String
  deriving DecidableEq

/-! ## Deduplication (`_parse_legistar_events`, kancit_missouricity.py) -/

/-- `f"{value}"` rendering of a field slot for the dedup key: missing keys
render through the `.get(..., "")` default, text renders as itself, and a
dict renders as its Python repr. -/
def fieldRepr : Option FieldVal → String
  | none => ""
  | some (.text s) => s
  | some (.link l u) => "\x7b'label': '" ++ l ++ "', 'url': '" ++ u ++ "'\x7d"
  | some (.ical u) => "\x7b'url': '" ++ u ++ "'\x7d"

/-- The `Name` cell's link URL used by the dedup key (`""` when the cell is
not a link dict). -/
def nameUrl (row : LegistarItem) : String :=
  match row.name with
  | some (.link _ u) => u
  | some (.ical u) => u
  | _ => ""

/-- `unique_key = f"{name_url}|{meeting_date}|{meeting_time}"`. -/
def dedupKey (row : LegistarItem) : String :=
  nameUrl row ++ "|" ++ fieldRepr row.meetingDate ++ "|" ++ fieldRepr row.meetingTime

/-- The per-response row loop of `_parse_legistar_events`: rows whose key is
already in `self._scraped_urls` are skipped, fresh keys are added to the set
and the row's dictionary appended to the returned events list. -/
def processRows (seen : List String) : List LegistarItem → List String × List LegistarItem
  | [] => (seen, [])
  | r :: rest =>
    let k := dedupKey r
    if k ∈ seen then processRows seen rest
    else
      let res := processRows (k :: seen) rest
      (res.1, r :: res.2)

/-- A whole crawl run: `_parse_legistar_events` invoked once per page
response, with `self._scraped_urls` persisting on the spider instance
between invocations; the run's emitted events are concatenated. -/
def processRun (seen : List String) : List (List LegistarItem) → List String × List LegistarItem
  | [] => (seen, [])
  | page :: pages =>
    let res := processRows seen page
    let res2 := processRun res.1 pages
    (res2.1, res.2 ++ res2.2)

/-! ## Helper lemmas about the dedup fold -/

theorem processRows_seen_mono (rows : List LegistarItem) (seen : List String) (k : String)
    (hk : k ∈ seen) : k ∈ (processRows seen rows).1 := by
  induction rows generalizing seen with
  | nil => simpa [processRows] using hk
  | cons r rest ih =>
    by_cases h : dedupKey r ∈ seen
    · simpa [processRows, h] using ih seen hk
    · simpa [processRows, h] using ih (dedupKey r :: seen) (by simp [hk])

theorem processRows_emitted_key_mem (rows : List LegistarItem) (seen : List String)
    (r : LegistarItem) (hr : r ∈ (processRows seen rows).2) :
    dedupKey r ∈ (processRows seen rows).1 := by
  induction rows generalizing seen with
  | nil => simp [processRows] at hr
  | cons a rest ih =>
    by_cases h : dedupKey a ∈ seen
    · rw [processRows, if_pos h] at hr ⊢
      exact ih seen hr
    · rw [processRows, if_neg h] at hr ⊢
      rcases List.mem_cons.mp hr with h1 | h1
      · subst h1
        exact processRows_seen_mono rest _ _ (by simp)
      · exact ih (dedupKey a :: seen) h1

theorem processRows_emitted_fresh (rows : List LegistarItem) (seen : List String)
    (r : LegistarItem) (hr : r ∈ (processRows seen rows).2) :
    dedupKey r ∉ seen := by
  induction rows generalizing seen with
  | nil => simp [processRows] at hr
  | cons a rest ih =>
    by_cases h : dedupKey a ∈ seen
    · rw [processRows, if_pos h] at hr
      exact ih seen hr
    · rw [processRows, if_neg h] at hr
      rcases List.mem_cons.mp hr with h1 | h1
      · subst h1; exact h
      · intro hmem
        exact ih (dedupKey a :: seen) h1 (by simp [hmem])

theorem processRows_nodup (rows : List LegistarItem) (seen : List String) :
    ((processRows seen rows).2.map dedupKey).Nodup := by
  induction rows generalizing seen with
  | nil => simp [processRows]
  | cons a rest ih =>
    by_cases h : dedupKey a ∈ seen
    · rw [processRows, if_pos h]
      exact ih seen
    · rw [processRows, if_neg h]
      refine List.nodup_cons.mpr ⟨?_, ih (dedupKey a :: seen)⟩
      intro hmem
      rcases List.mem_map.mp hmem with ⟨r, hr, hkey⟩
      exact processRows_emitted_fresh rest (dedupKey a :: seen) r hr (by simp [hkey])

theorem processRun_seen_mono (pages : List (List LegistarItem)) (seen : List String)
    (k : String) (hk : k ∈ seen) : k ∈ (processRun seen pages).1 := by
  induction pages generalizing seen with
  | nil => simpa [processRun] using hk
  | cons page rest ih =>
    rw [processRun]
    exact ih _ (processRows_seen_mono page seen k hk)

theorem processRun_emitted_key_mem (pages : List (List LegistarItem)) (seen : List String)
    (r : LegistarItem) (hr : r ∈ (processRun seen pages).2) :
    dedupKey r ∈ (processRun seen pages).1 := by
  induction pages generalizing seen with
  | nil => simp [processRun] at hr
  | cons page rest ih =>
    rw [processRun] at hr ⊢
    rcases List.mem_append.mp hr with h1 | h1
    · exact processRun_seen_mono rest _ _ (processRows_emitted_key_mem page seen r h1)
    · exact ih _ h1

theorem processRun_emitted_fresh (pages : List (List LegistarItem)) (seen : List String)
    (r : LegistarItem) (hr : r ∈ (processRun seen pages).2) :
    dedupKey r ∉ seen := by
  induction pages generalizing seen with
  | nil => simp [processRun] at hr
  | cons page rest ih =>
    rw [processRun] at hr
    rcases List.mem_append.mp hr with h1 | h1
    · exact processRows_emitted_fresh page seen r h1
    · intro hmem
      exact ih _ h1 (processRows_seen_mono page seen _ hmem)

theorem processRun_nodup (pages : List (List LegistarItem)) (seen : List String) :
    ((processRun seen pages).2.map dedupKey).Nodup := by
  induction pages generalizing seen with
  | nil => simp [processRun]
  | cons page rest ih =>
    rw [processRun]
    simp only [List.map_append]
    refine List.Nodup.append (processRows_nodup page seen) (ih _) ?_
    intro k hk1 hk2
    rcases List.mem_map.mp hk1 with ⟨r1, hr1, he1⟩
    rcases List.mem_map.mp hk2 with ⟨r2, hr2, he2⟩
    have hfresh := processRun_emitted_fresh rest _ r2 hr2
    have hmem := processRows_emitted_key_mem page seen r1 hr1
    rw [he1] at hmem
    rw [he2] at hfresh
    exact hfresh hmem

/-- C2: within one run, at most one event dictionary is returned per distinct
composite key `(Name link URL, raw Meeting Date text, raw Meeting Time text)`,
across any number of page responses, because the seen-key set is threaded
through the whole run; moreover any row whose key was already in the set
before the run's pages were processed is never emitted. -/
theorem c2_dedup_across_pages :
    ∀ (seen : List String) (pages : List (List LegistarItem)),
      ((processRun seen pages).2.map dedupKey).Nodup ∧
        ∀ r ∈ (processRun seen pages).2, dedupKey r ∉ seen := by
  intro seen pages
  exact ⟨processRun_nodup pages seen, fun r hr => processRun_emitted_fresh pages seen r hr⟩

/-- Concrete run for the C2 witness: the same row on two different pages, and
a same-key row with different incidental content on the first page. -/
def c2RowA : LegistarItem :=
  { name := some (.link "Board of Commissioners" "https://x/3532"),
    meetingDate := some (.text "02/05/2026"), meetingTime := some (.text "5:30 PM"),
    agenda := some (.link "Agenda" "https://x/a1") }

/-- Same composite key as `c2RowA`, different links payload. -/
def c2RowB : LegistarItem :=
  { name := some (.link "Board of Commissioners" "https://x/3532"),
    meetingDate := some (.text "02/05/2026"), meetingTime := some (.text "5:30 PM"),
    minutes := some (.link "Minutes" "https://x/m1") }

theorem c2_dedup_across_pages_witness :
    (((processRun [] [[c2RowA, c2RowB], [c2RowA]]).2.map dedupKey).Nodup ∧
        ∀ r ∈ (processRun [] [[c2RowA, c2RowB], [c2RowA]]).2, dedupKey r ∉ ([] : List String)) ∧
      (processRun [] [[c2RowA, c2RowB], [c2RowA]]).2 = [c2RowA] :=
  ⟨c2_dedup_across_pages [] [[c2RowA, c2RowB], [c2RowA]], by decide⟩

/-! ## Classification (`_parse_classification`) -/

/-- The closed category set from `city_scrapers_core.constants`. -/
inductive Classification where
  | cityCouncil
  | committee
  | commission
  | board
  | notClassified
  deriving DecidableEq

/-- Ordered first-match keyword test: scan the precedence list; the first
keyword contained in the lowered title wins; no match yields the sentinel. -/
def firstKeywordMatch : List (String × Classification) → String → Classification
  | [], _ => .notClassified
  | (k, c) :: rest, lowered =>
    if pyContains k lowered then c else firstKeywordMatch rest lowered

/-- The lowered name extracted by `KancitMissouricitySpider._parse_classification`:
a dict takes its `label` (missing label yields `""`), a plain string is used
directly, anything else yields `""`. -/
def classificationName : Option FieldVal → String
  | some (.link l _) => pyLower l
  | some (.ical _) => ""
  | some (.text s) => pyLower s
  | none => ""

/-- `KancitMissouricitySpider._parse_classification`
(spiders/kancit_missouricity.py lines 168-184). -/
def spiderParseClassification (nameField : Option FieldVal) : Classification :=
  let name := classificationName nameField
  if pyContains "council" name then .cityCouncil
  else if pyContains "committee" name then .committee
  else if pyContains "commission" name then .commission
  else if pyContains "board" name then .board
  else .notClassified

/-- `CivicClerkMixin._parse_classification` (mixins/wycokck.py lines 141-153). -/
def civicParseClassification (title : String) : Classification :=
  let titleLower := pyLower title
  if pyContains "committee" titleLower then .committee
  else if pyContains "commission" titleLower then .commission
  else if pyContains "board" titleLower then .board
  else .notClassified

/-- C3, as stated: false. The CivicClerk mixin's title classifier has no
"council" branch, so a title containing both "council" and "committee"
classifies as COMMITTEE there, not as the city-council category. -/
theorem c3_counterexample :
    civicParseClassification "City Council Committee" = Classification.committee ∧
      Classification.committee ≠ Classification.cityCouncil := by
  constructor
  · decide
  · decide

/-- C3 (amended): the Legistar spider's classifier is the ordered first-match
keyword test with precedence council, committee, commission, board over the
lowered title (NOT_CLASSIFIED when none occurs), and a title containing both
"council" and "committee" classifies as CITY_COUNCIL there; the CivicClerk
mixin's classifier is the ordered first-match test with precedence committee,
commission, board only — it has no "council" keyword — so a title containing
both "council" and "committee" classifies as COMMITTEE there. -/
theorem c3_classifier_precedence_amended :
    (∀ nf : Option FieldVal,
        spiderParseClassification nf =
          firstKeywordMatch
            [("council", .cityCouncil), ("committee", .committee),
              ("commission", .commission), ("board", .board)]
            (classificationName nf)) ∧
      (∀ s : String,
          pyContains "council" (pyLower s) = true →
            spiderParseClassification (some (.text s)) = Classification.cityCouncil) ∧
      (∀ t : String,
          civicParseClassification t =
            firstKeywordMatch
              [("committee", .committee), ("commission", .commission), ("board", .board)]
              (pyLower t)) ∧
      (∀ t : String,
          pyContains "council" (pyLower t) = true →
            pyContains "committee" (pyLower t) = true →
              civicParseClassification t = Classification.committee) := by
  refine ⟨fun nf => rfl, fun s h => ?_, fun t => rfl, fun t _ h2 => ?_⟩
  · simp [spiderParseClassification, classificationName, h]
  · simp [civicParseClassification, h2]

theorem c3_classifier_precedence_amended_witness :
    spiderParseClassification (some (.text "City Council Committee")) =
        Classification.cityCouncil ∧
      civicParseClassification "City Council Committee" = Classification.committee :=
  ⟨c3_classifier_precedence_amended.2.1 "City Council Committee" (by decide),
    c3_classifier_precedence_amended.2.2.2 "City Council Committee" (by decide) (by decide)⟩

/-! ## Year-dropdown discovery (`_get_max_year_from_dropdown` and `parse`,
mixins/kancit_missouricity.py) -/

/-- The first page response, abstracted to what the mixin reads from it: the
text options returned by the primary year-dropdown selector, those returned
by the fallback selector, and the current calendar year (`datetime.now().year`). -/
structure DropdownPage where
  primaryOptions : List String
  altOptions : List String
  currentYear : Nat

/-- The options actually scanned: the primary selector's results, or the
fallback selector's results when the primary finds nothing. -/
def effectiveOptions (page : DropdownPage) : List String :=
  if page.primaryOptions.isEmpty then page.altOptions else page.primaryOptions

/-- The numeric years among the (stripped) dropdown options. -/
def numericYears (page : DropdownPage) : List Nat :=
  (effectiveOptions page).filterMap fun o =>
    let o2 := pyStrip o
    if pyIsDigit o2 then some (digitsToNat o2.data) else none

/-- `KancitMissouricityMixin._get_max_year_from_dropdown`. -/
def getMaxYearFromDropdown (page : DropdownPage) : Nat :=
  match numericYears page with
  | [] => page.currentYear + 1
  | h :: t => t.foldl Nat.max h

/-- `START_YEAR = 2020`. -/
def START_YEAR : Nat := 2020

/-- Python `range(a, b)` as a list. -/
def pyRange (a b : Nat) : List Nat := List.range' a (b - a)

/-- The years for which `KancitMissouricityMixin.parse` issues one POST
request each: `range(START_YEAR, max_year + 1)`. -/
def parseRequestYears (page : DropdownPage) : List Nat :=
  pyRange START_YEAR (getMaxYearFromDropdown page + 1)

theorem le_foldl_max_init (t : List Nat) (x : Nat) : x ≤ t.foldl Nat.max x := by
  induction t generalizing x with
  | nil => exact Nat.le_refl x
  | cons a rest ih =>
    simp only [List.foldl_cons]
    exact Nat.le_trans (Nat.le_max_left x a) (ih (Nat.max x a))

theorem foldl_max_le (t : List Nat) (h : Nat) (y : Nat) (hy : y = h ∨ y ∈ t) :
    y ≤ t.foldl Nat.max h := by
  induction t generalizing h with
  | nil =>
    rcases hy with rfl | hy
    · exact Nat.le_refl _
    · simp at hy
  | cons a rest ih =>
    simp only [List.foldl_cons]
    rcases hy with rfl | hy
    · exact Nat.le_trans (Nat.le_max_left y a) (le_foldl_max_init rest _)
    · rcases List.mem_cons.mp hy with rfl | hy
      · exact Nat.le_trans (Nat.le_max_right h y) (le_foldl_max_init rest _)
      · exact ih _ (Or.inr hy)

theorem foldl_max_mem (t : List Nat) (h : Nat) :
    t.foldl Nat.max h = h ∨ t.foldl Nat.max h ∈ t := by
  induction t generalizing h with
  | nil => simp
  | cons a rest ih =>
    simp only [List.foldl_cons]
    rcases ih (Nat.max h a) with h1 | h1
    · rcases Nat.le_total h a with hle | hle
      · right; rw [h1]; simp [Nat.max_eq_right hle]
      · left; rw [h1]; exact Nat.max_eq_left hle
    · right; exact List.mem_cons_of_mem a h1

/-- C7: the maximum year the mixin requests is the largest numeric option of
the page's year dropdown when at least one numeric option is present, and the
current calendar year plus one when the dropdown is absent or has no numeric
options; `parse` then issues exactly one request per year from `START_YEAR`
through that maximum year inclusive. -/
theorem c7_year_range :
    ∀ page : DropdownPage,
      (numericYears page = [] → getMaxYearFromDropdown page = page.currentYear + 1) ∧
        (numericYears page ≠ [] →
          getMaxYearFromDropdown page ∈ numericYears page ∧
            ∀ y ∈ numericYears page, y ≤ getMaxYearFromDropdown page) ∧
        (∀ y, y ∈ parseRequestYears page ↔
          START_YEAR ≤ y ∧ y ≤ getMaxYearFromDropdown page) ∧
        (parseRequestYears page).Nodup := by
  intro page
  refine ⟨fun h => by simp [getMaxYearFromDropdown, h], fun h => ?_, fun y => ?_, ?_⟩
  · rcases hny : numericYears page with _ | ⟨a, t⟩
    · exact absurd hny h
    · have hmax : getMaxYearFromDropdown page = t.foldl Nat.max a := by
        simp [getMaxYearFromDropdown, hny]
      constructor
      · rw [hmax]
        rcases foldl_max_mem t a with h1 | h1
        · rw [h1]; exact List.mem_cons_self a t
        · exact List.mem_cons_of_mem a h1
      · intro y hy
        rw [hmax]
        rcases List.mem_cons.mp hy with h1 | h1
        · exact foldl_max_le t a y (Or.inl h1)
        · exact foldl_max_le t a y (Or.inr h1)
  · rw [parseRequestYears, pyRange, List.mem_range']
    constructor
    · rintro ⟨i, hi, rfl⟩
      omega
    · rintro ⟨h1, h2⟩
      exact ⟨y - START_YEAR, by omega, by omega⟩
  · rw [parseRequestYears, pyRange]
    exact List.nodup_range' _ _

theorem c7_year_range_witness :
    (getMaxYearFromDropdown ⟨["2020", "2024", "2022"], [], 2025⟩ = 2024 ∧
        getMaxYearFromDropdown ⟨[], [], 2025⟩ = 2026) ∧
      parseRequestYears ⟨["2020", "2024", "2022"], [], 2025⟩ = [2020, 2021, 2022, 2023, 2024] ∧
      (2022 ∈ parseRequestYears ⟨["2020", "2024", "2022"], [], 2025⟩ ∧
        (parseRequestYears ⟨["2020", "2024", "2022"], [], 2025⟩).Nodup) := by
  refine ⟨⟨by decide, by decide⟩, by decide, ?_, ?_⟩
  · exact ((c7_year_range ⟨["2020", "2024", "2022"], [], 2025⟩).2.2.1 2022).mpr
      (by constructor <;> decide)
  · exact (c7_year_range ⟨["2020", "2024", "2022"], [], 2025⟩).2.2.2

/-! ## Location normalization (`_parse_location` / `_clean_location_string`,
mixins/kancit_missouricity.py lines 249-356) -/

/-- The fixed virtual-meeting indicator list of `_parse_location`. -/
def virtualIndicators : List String :=
  ["zoom", "virtual", "teams.microsoft.com", "webex", "gotomeeting", "meet.google.com"]

/-- `any(indicator in location_lower for indicator in virtual_indicators)`. -/
def containsVirtualIndicator (locationLower : String) : Bool :=
  virtualIndicators.any fun ind => pyContains ind locationLower

/-- The per-line filter of `_clean_location_string`: a stripped line survives
unless it is empty, starts like a phone number, mentions a conference id, a
meeting id / passcode / password, is a URL, or mentions a virtual platform. -/
def keepLine (line : List Char) : Bool :=
  !line.isEmpty &&
    !phoneMatch line &&
    !confIdSearch (line.map pyLowerChar) &&
    !meetingIdSearch (line.map pyLowerChar) &&
    !urlMatch line &&
    !(["teams.microsoft.com", "zoom", "webex", "click here"].any fun ind =>
        chContains ind.data (line.map pyLowerChar))

/-- `" ".join(cleaned_lines)`. -/
def joinSpace : List (List Char) → List Char
  | [] => []
  | [l] => l
  | l :: rest => l ++ ' ' :: joinSpace rest

/-- `KancitMissouricityMixin._clean_location_string`. -/
def cleanLocationString (s : String) : String :=
  let lines := (splitNl s.data).map pyStripList
  let cleanedLines := lines.filter keepLine
  let result := joinSpace cleanedLines
  String.mk (pyStripList (subTrailingSuffix result))

/-- The raw `Meeting Location` text: a dict takes its `label` (missing label
yields `""`), text is used directly, a missing field yields `""` (the
`.get("Meeting Location", "")` default). -/
def meetingLocationStr (item : LegistarItem) : String :=
  match item.meetingLocation with
  | some (.link l _) => l
  | some (.ical _) => ""
  | some (.text s) => s
  | none => ""

/-- `KancitMissouricityMixin._parse_location`; `defaultLoc` is the optional
`meeting_location` class attribute of the concrete spider. -/
def legistarParseLocation (defaultLoc : Option Location) (item : LegistarItem) : Location :=
  let mls0 := meetingLocationStr item
  if mls0 ≠ "" then
    let mls := pyStrip mls0
    if containsVirtualIndicator (pyLower mls) then ⟨"Virtual Meeting", ""⟩
    else if phoneMatch mls.data then ⟨"Virtual Meeting", ""⟩
    else
      let cleaned := cleanLocationString mls
      if cleaned ≠ "" && zipSearch cleaned then ⟨"", cleaned⟩
      else
        match defaultLoc with
        | some d => d
        | none =>
          if mls = "" then ⟨"", ""⟩
          else ⟨cleanLocationString mls, ""⟩
  else
    match defaultLoc with
    | some d => d
    | none => ⟨"", ""⟩

theorem cleanLocationString_empty : cleanLocationString "" = "" := by decide

/-- C6: any raw location text whose lowered (stripped) form contains one of
the fixed virtual-meeting indicators makes the Legistar location parser
return exactly `{name: "Virtual Meeting", address: ""}`, wherever in the
text the indicator occurs and for any configured default location. -/
theorem c6_virtual_location :
    ∀ (defaultLoc : Option Location) (item : LegistarItem),
      containsVirtualIndicator (pyLower (pyStrip (meetingLocationStr item))) = true →
        legistarParseLocation defaultLoc item = ⟨"Virtual Meeting", ""⟩ := by
  intro defaultLoc item h
  have hne : meetingLocationStr item ≠ "" := by
    intro h0
    rw [h0] at h
    exact absurd h (by decide)
  rw [legistarParseLocation.eq_def]
  simp only [hne, if_pos, h]
  simp [hne]

theorem c6_virtual_location_witness :
    legistarParseLocation (some ⟨"City Hall", "414 E 12th St"⟩)
        { meetingLocation :=
            some (.text "Join via Zoom: https://zoom.us/j/123, Meeting ID: 123") } =
      ⟨"Virtual Meeting", ""⟩ :=
  c6_virtual_location (some ⟨"City Hall", "414 E 12th St"⟩)
    { meetingLocation :=
        some (.text "Join via Zoom: https://zoom.us/j/123, Meeting ID: 123") }
    (by decide)

/-- C4: for a non-empty raw location text that triggers neither the
virtual-indicator rule nor the phone-number rule, the Legistar location
parser returns `{name: "", address: cleanedText}` when the cleaned text
contains a ZIP-shaped substring; otherwise it returns the configured default
location when one is configured, and `{name: cleanedText, address: ""}` only
when none is configured. -/
theorem c4_location_default_preference :
    ∀ (defaultLoc : Option Location) (item : LegistarItem),
      meetingLocationStr item ≠ "" →
      containsVirtualIndicator (pyLower (pyStrip (meetingLocationStr item))) = false →
      phoneMatch (pyStrip (meetingLocationStr item)).data = false →
        (zipSearch (cleanLocationString (pyStrip (meetingLocationStr item))) = true →
            legistarParseLocation defaultLoc item =
              ⟨"", cleanLocationString (pyStrip (meetingLocationStr item))⟩) ∧
          (zipSearch (cleanLocationString (pyStrip (meetingLocationStr item))) = false →
            legistarParseLocation defaultLoc item =
              defaultLoc.getD ⟨cleanLocationString (pyStrip (meetingLocationStr item)), ""⟩) := by
  intro defaultLoc item hne hvirt hphone
  constructor
  · intro hzip
    have hcl : cleanLocationString (pyStrip (meetingLocationStr item)) ≠ "" := by
      intro h0
      rw [h0] at hzip
      exact absurd hzip (by decide)
    rw [legistarParseLocation.eq_def]
    simp only [hne, hvirt, hphone, hzip, hcl]
    simp
    rw [if_neg hne, if_neg hcl]
  · intro hzip
    rw [legistarParseLocation.eq_def]
    simp only [hne, hvirt, hphone, hzip]
    rcases defaultLoc with _ | d
    · simp only [Bool.and_false, if_neg]
      by_cases hmls : pyStrip (meetingLocationStr item) = ""
      · simp [hmls, cleanLocationString_empty, Option.getD, hne]
      · simp [hmls, Option.getD, hne]
    · simp

/-- Concrete no-ZIP input of the spec's location example. -/
def c4ItemNoZip : LegistarItem := { meetingLocation := some (.text "2010 N. 59th Street") }

/-- Concrete input whose cleaned text contains a ZIP-shaped substring. -/
def c4ItemZip : LegistarItem :=
  { meetingLocation := some (.text "City Hall\n414 E 12th St, Kansas City, MO 64106") }

theorem c4_location_default_preference_witness :
    legistarParseLocation (some ⟨"Central Office", "2010 N. 59th Street"⟩) c4ItemNoZip =
        ⟨"Central Office", "2010 N. 59th Street"⟩ ∧
      legistarParseLocation (some ⟨"Central Office", "2010 N. 59th Street"⟩) c4ItemZip =
        ⟨"", "City Hall 414 E 12th St, Kansas City, MO 64106"⟩ :=
  ⟨(c4_location_default_preference (some ⟨"Central Office", "2010 N. 59th Street"⟩)
      c4ItemNoZip (by decide) (by decide) (by decide)).2 (by decide),
    by
      have h := (c4_location_default_preference (some ⟨"Central Office", "2010 N. 59th Street"⟩)
        c4ItemZip (by decide) (by decide) (by decide)).1 (by decide)
      rw [h]
      decide⟩

/-! ## Link filtering (`_parse_links`, mixins/kancit_missouricity.py lines
358-403; the spider copy in spiders/kancit_missouricity.py is identical) -/

/-- `field.get("url")` seen through the `isinstance(field, dict)` guard:
`some url` when the field value is a dict, `none` otherwise. -/
def descUrl : Option FieldVal → Option String
  | some (.link _ u) => some u
  | some (.ical u) => some u
  | _ => none

/-- The Agenda block of `_parse_links`. -/
def agendaEmit (item : LegistarItem) : Option Link :=
  match item.agenda with
  | some (.link l u) => if u = "" then none else some ⟨u, l⟩
  | some (.ical u) => if u = "" then none else some ⟨u, "Agenda"⟩
  | _ => none

/-- The Minutes block of `_parse_links`. -/
def minutesEmit (item : LegistarItem) : Option Link :=
  match item.minutes with
  | some (.link l u) => if u = "" then none else some ⟨u, l⟩
  | some (.ical u) => if u = "" then none else some ⟨u, "Minutes"⟩
  | _ => none

/-- The iCalendar block of `_parse_links` (title is always `"iCalendar"`). -/
def icalEmit (item : LegistarItem) : Option Link :=
  match item.iCalendar with
  | some (.link _ u) => if u = "" then none else some ⟨u, "iCalendar"⟩
  | some (.ical u) => if u = "" then none else some ⟨u, "iCalendar"⟩
  | _ => none

/-- The label of a video/audio dict: `field.get("label", default)`. -/
def labelOr (default : String) : FieldVal → String
  | .link l _ => l
  | .ical _ => default
  | .text _ => default

/-- The suppression test of the Video/Audio blocks:
`label and "not" not in label.lower() and "available" not in label.lower()`. -/
def mediaLabelOk (label : String) : Bool :=
  label ≠ "" && !pyContains "not" (pyLower label) && !pyContains "available" (pyLower label)

/-- The Video block of `_parse_links`. -/
def videoEmit (item : LegistarItem) : Option Link :=
  match item.video with
  | some (.link l u) =>
    if u = "" then none
    else if mediaLabelOk (labelOr "Video" (.link l u)) then some ⟨u, l⟩ else none
  | some (.ical u) =>
    if u = "" then none
    else if mediaLabelOk "Video" then some ⟨u, "Video"⟩ else none
  | _ => none

/-- The Audio block of `_parse_links`. -/
def audioEmit (item : LegistarItem) : Option Link :=
  match item.audio with
  | some (.link l u) =>
    if u = "" then none
    else if mediaLabelOk (labelOr "Audio" (.link l u)) then some ⟨u, l⟩ else none
  | some (.ical u) =>
    if u = "" then none
    else if mediaLabelOk "Audio" then some ⟨u, "Audio"⟩ else none
  | _ => none

/-- `KancitMissouricityMixin._parse_links`: the sequential `links.append`
blocks, in source order Agenda, Minutes, iCalendar, Video, Audio. -/
def legistarParseLinks (item : LegistarItem) : List Link :=
  (agendaEmit item).toList ++ (minutesEmit item).toList ++ (icalEmit item).toList ++
    (videoEmit item).toList ++ (audioEmit item).toList

/-- The five role fields of an item, in the fixed encounter order. -/
def roleFields (item : LegistarItem) : List (Option FieldVal) :=
  [item.agenda, item.minutes, item.iCalendar, item.video, item.audio]

/-- Per-role emitters, in the fixed encounter order. -/
def roleEmitters : List (LegistarItem → Option Link) :=
  [agendaEmit, minutesEmit, icalEmit, videoEmit, audioEmit]

theorem option_toList_mem {α : Type} {o : Option α} {x : α} (hx : x ∈ o.toList) :
    o = some x := by
  rcases o with _ | v
  · simp [Option.toList] at hx
  · simp [Option.toList] at hx
    simp [hx]

theorem agendaEmit_url (item : LegistarItem) (lk : Link) (h : agendaEmit item = some lk) :
    descUrl item.agenda = some lk.href ∧ lk.href ≠ "" := by
  rcases hf : item.agenda with _ | fv
  · rw [agendaEmit, hf] at h; simp at h
  · rcases fv with s | ⟨l, u⟩ | u <;> rw [agendaEmit, hf] at h
    · simp at h
    · by_cases hu : u = ""
      · simp [hu] at h
      · replace h : (if u = "" then none else some (⟨u, l⟩ : Link)) = some lk := h
        rw [if_neg hu] at h
        rcases Option.some.inj h with rfl
        exact ⟨by simp [descUrl, hf], hu⟩
    · by_cases hu : u = ""
      · simp [hu] at h
      · replace h : (if u = "" then none else some (⟨u, "Agenda"⟩ : Link)) = some lk := h
        rw [if_neg hu] at h
        rcases Option.some.inj h with rfl
        exact ⟨by simp [descUrl, hf], hu⟩

theorem minutesEmit_url (item : LegistarItem) (lk : Link) (h : minutesEmit item = some lk) :
    descUrl item.minutes = some lk.href ∧ lk.href ≠ "" := by
  rcases hf : item.minutes with _ | fv
  · rw [minutesEmit, hf] at h; simp at h
  · rcases fv with s | ⟨l, u⟩ | u <;> rw [minutesEmit, hf] at h
    · simp at h
    · by_cases hu : u = ""
      · simp [hu] at h
      · replace h : (if u = "" then none else some (⟨u, l⟩ : Link)) = some lk := h
        rw [if_neg hu] at h
        rcases Option.some.inj h with rfl
        exact ⟨by simp [descUrl, hf], hu⟩
    · by_cases hu : u = ""
      · simp [hu] at h
      · replace h : (if u = "" then none else some (⟨u, "Minutes"⟩ : Link)) = some lk := h
        rw [if_neg hu] at h
        rcases Option.some.inj h with rfl
        exact ⟨by simp [descUrl, hf], hu⟩

theorem icalEmit_url (item : LegistarItem) (lk : Link) (h : icalEmit item = some lk) :
    descUrl item.iCalendar = some lk.href ∧ lk.href ≠ "" := by
  rcases hf : item.iCalendar with _ | fv
  · rw [icalEmit, hf] at h; simp at h
  · rcases fv with s | ⟨l, u⟩ | u <;> rw [icalEmit, hf] at h
    · simp at h
    · by_cases hu : u = ""
      · simp [hu] at h
      · replace h : (if u = "" then none else some (⟨u, "iCalendar"⟩ : Link)) = some lk := h
        rw [if_neg hu] at h
        rcases Option.some.inj h with rfl
        exact ⟨by simp [descUrl, hf], hu⟩
    · by_cases hu : u = ""
      · simp [hu] at h
      · replace h : (if u = "" then none else some (⟨u, "iCalendar"⟩ : Link)) = some lk := h
        rw [if_neg hu] at h
        rcases Option.some.inj h with rfl
        exact ⟨by simp [descUrl, hf], hu⟩

theorem videoEmit_url (item : LegistarItem) (lk : Link) (h : videoEmit item = some lk) :
    descUrl item.video = some lk.href ∧ lk.href ≠ "" := by
  rcases hf : item.video with _ | fv
  · rw [videoEmit, hf] at h; simp at h
  · rcases fv with s | ⟨l, u⟩ | u <;> rw [videoEmit, hf] at h
    · simp at h
    · by_cases hu : u = ""
      · simp [hu] at h
      · replace h : (if u = "" then none
            else if mediaLabelOk (labelOr "Video" (.link l u)) = true then
              some (⟨u, l⟩ : Link) else none) = some lk := h
        rw [if_neg hu] at h
        by_cases hok : mediaLabelOk (labelOr "Video" (.link l u)) = true
        · rw [if_pos hok] at h
          rcases Option.some.inj h with rfl
          exact ⟨by simp [descUrl, hf], hu⟩
        · rw [if_neg hok] at h; simp at h
    · by_cases hu : u = ""
      · simp [hu] at h
      · replace h : (if u = "" then none
            else if mediaLabelOk "Video" = true then
              some (⟨u, "Video"⟩ : Link) else none) = some lk := h
        rw [if_neg hu] at h
        by_cases hok : mediaLabelOk "Video" = true
        · rw [if_pos hok] at h
          rcases Option.some.inj h with rfl
          exact ⟨by simp [descUrl, hf], hu⟩
        · rw [if_neg hok] at h; simp at h

theorem audioEmit_url (item : LegistarItem) (lk : Link) (h : audioEmit item = some lk) :
    descUrl item.audio = some lk.href ∧ lk.href ≠ "" := by
  rcases hf : item.audio with _ | fv
  · rw [audioEmit, hf] at h; simp at h
  · rcases fv with s | ⟨l, u⟩ | u <;> rw [audioEmit, hf] at h
    · simp at h
    · by_cases hu : u = ""
      · simp [hu] at h
      · replace h : (if u = "" then none
            else if mediaLabelOk (labelOr "Audio" (.link l u)) = true then
              some (⟨u, l⟩ : Link) else none) = some lk := h
        rw [if_neg hu] at h
        by_cases hok : mediaLabelOk (labelOr "Audio" (.link l u)) = true
        · rw [if_pos hok] at h
          rcases Option.some.inj h with rfl
          exact ⟨by simp [descUrl, hf], hu⟩
        · rw [if_neg hok] at h; simp at h
    · by_cases hu : u = ""
      · simp [hu] at h
      · replace h : (if u = "" then none
            else if mediaLabelOk "Audio" = true then
              some (⟨u, "Audio"⟩ : Link) else none) = some lk := h
        rw [if_neg hu] at h
        by_cases hok : mediaLabelOk "Audio" = true
        · rw [if_pos hok] at h
          rcases Option.some.inj h with rfl
          exact ⟨by simp [descUrl, hf], hu⟩
        · rw [if_neg hok] at h; simp at h

/-- C9: the link filter emits links in the fixed encounter order Agenda,
Minutes, iCalendar, Video, Audio (the output is the ordered concatenation of
one optional link per role); every emitted link comes from a role field that
is a link descriptor whose URL (the link's href) is non-empty; and the Video
and Audio roles are suppressed entirely whenever their label's lowered form
contains "not" or contains "available". -/
theorem c9_link_filter :
    (∀ item : LegistarItem,
        legistarParseLinks item = (roleEmitters.map (fun f => f item)).flatMap Option.toList) ∧
      (∀ (item : LegistarItem) (lk : Link), lk ∈ legistarParseLinks item →
        lk.href ≠ "" ∧ ∃ f ∈ roleFields item, descUrl f = some lk.href) ∧
      (∀ (item : LegistarItem) (l u : String),
        item.video = some (.link l u) →
        (pyContains "not" (pyLower l) = true ∨ pyContains "available" (pyLower l) = true) →
          legistarParseLinks item = legistarParseLinks { item with video := none }) ∧
      (∀ (item : LegistarItem) (l u : String),
        item.audio = some (.link l u) →
        (pyContains "not" (pyLower l) = true ∨ pyContains "available" (pyLower l) = true) →
          legistarParseLinks item = legistarParseLinks { item with audio := none }) := by
  refine ⟨fun item => ?_, fun item lk hlk => ?_, fun item l u hv hcont => ?_,
    fun item l u hv hcont => ?_⟩
  · simp [legistarParseLinks, roleEmitters, List.flatMap]
  · rw [legistarParseLinks] at hlk
    simp only [List.mem_append] at hlk
    rcases hlk with (((h | h) | h) | h) | h
    · have := agendaEmit_url item lk (option_toList_mem h)
      exact ⟨this.2, item.agenda, by simp [roleFields], this.1⟩
    · have := minutesEmit_url item lk (option_toList_mem h)
      exact ⟨this.2, item.minutes, by simp [roleFields], this.1⟩
    · have := icalEmit_url item lk (option_toList_mem h)
      exact ⟨this.2, item.iCalendar, by simp [roleFields], this.1⟩
    · have := videoEmit_url item lk (option_toList_mem h)
      exact ⟨this.2, item.video, by simp [roleFields], this.1⟩
    · have := audioEmit_url item lk (option_toList_mem h)
      exact ⟨this.2, item.audio, by simp [roleFields], this.1⟩
  · have hvz : videoEmit item = none := by
      rw [videoEmit, hv]
      rcases hcont with h1 | h1 <;> simp [mediaLabelOk, labelOr, h1]
    have : videoEmit { item with video := none } = none := by rw [videoEmit]
    simp [legistarParseLinks, hvz, this, agendaEmit, minutesEmit, icalEmit, audioEmit]
  · have haz : audioEmit item = none := by
      rw [audioEmit, hv]
      rcases hcont with h1 | h1 <;> simp [mediaLabelOk, labelOr, h1]
    have : audioEmit { item with audio := none } = none := by rw [audioEmit]
    simp [legistarParseLinks, haz, this, agendaEmit, minutesEmit, icalEmit, videoEmit]

/-- Concrete item for the C9 witness: agenda and minutes present, video with
a "Not available" placeholder label, audio absent. -/
def c9Item : LegistarItem :=
  { agenda := some (.link "Agenda" "https://x/a"),
    minutes := some (.link "Minutes" "https://x/m"),
    iCalendar := some (.ical "https://x/ics"),
    video := some (.link "Not available" "https://x/v") }

theorem c9_link_filter_witness :
    (∀ lk ∈ legistarParseLinks c9Item,
        lk.href ≠ "" ∧ ∃ f ∈ roleFields c9Item, descUrl f = some lk.href) ∧
      legistarParseLinks c9Item = legistarParseLinks { c9Item with video := none } ∧
      legistarParseLinks c9Item =
        [⟨"https://x/a", "Agenda"⟩, ⟨"https://x/m", "Minutes"⟩, ⟨"https://x/ics", "iCalendar"⟩] :=
  ⟨fun lk hlk => c9_link_filter.2.1 c9Item lk hlk,
    c9_link_filter.2.2.1 c9Item "Not available" "https://x/v" (by decide) (Or.inl (by decide)),
    by decide⟩

/-! ## C5: duplicate hrefs within one record's links list -/

/-- Item whose Agenda and Minutes cells carry the same URL. -/
def c5Item : LegistarItem :=
  { agenda := some (.link "Agenda" "https://x/doc"),
    minutes := some (.link "Minutes" "https://x/doc") }

/-- C5, as stated: false. Neither `_parse_links` deduplicates by href, so a
record whose Agenda and Minutes cells point at the same URL yields two links
with the same href. -/
theorem c5_counterexample :
    (legistarParseLinks c5Item).map Link.href = ["https://x/doc", "https://x/doc"] ∧
      ¬((legistarParseLinks c5Item).map Link.href).Nodup := by
  constructor
  · decide
  · decide

/-- The URLs offered by the five role fields, in encounter order. -/
def presentUrls (item : LegistarItem) : List String :=
  (roleFields item).filterMap descUrl

theorem presentUrls_eq (item : LegistarItem) :
    presentUrls item =
      (descUrl item.agenda).toList ++ (descUrl item.minutes).toList ++
        (descUrl item.iCalendar).toList ++ (descUrl item.video).toList ++
        (descUrl item.audio).toList := by
  rw [presentUrls, roleFields]
  rcases h1 : descUrl item.agenda <;> rcases h2 : descUrl item.minutes <;>
    rcases h3 : descUrl item.iCalendar <;> rcases h4 : descUrl item.video <;>
    rcases h5 : descUrl item.audio <;>
    simp [List.filterMap, Option.toList, h1, h2, h3, h4, h5]

theorem emit_toList_sublist (o : Option Link) (f : Option FieldVal)
    (h : ∀ lk, o = some lk → descUrl f = some lk.href ∧ lk.href ≠ "") :
    List.Sublist (o.toList.map Link.href) (descUrl f).toList := by
  cases o with
  | none => simp
  | some lk =>
    have := (h lk rfl).1
    rw [this]
    simp

theorem legistar_hrefs_sublist (item : LegistarItem) :
    List.Sublist ((legistarParseLinks item).map Link.href) (presentUrls item) := by
  rw [presentUrls_eq, legistarParseLinks]
  simp only [List.map_append]
  exact ((((emit_toList_sublist _ _ (agendaEmit_url item)).append
    (emit_toList_sublist _ _ (minutesEmit_url item))).append
    (emit_toList_sublist _ _ (icalEmit_url item))).append
    (emit_toList_sublist _ _ (videoEmit_url item))).append
    (emit_toList_sublist _ _ (audioEmit_url item))

/-! ## CivicClerk raw events (mixins/wycokck.py) -/

/-- The `eventLocation` sub-object of a CivicClerk event. -/
structure EventLocation where
  address1 : Option String := none
  address2 : Option String := none
  city : Option String := none
  state : Option String := none
  zipCode : Option String := none
  deriving DecidableEq

/-- One entry of a CivicClerk event's `publishedFiles` list. -/
structure PubFile where
  fileId : Option Nat := none
  ftype : Option String := none
  deriving DecidableEq

/-- A raw CivicClerk API event object, restricted to the keys the mixin
reads; missing keys are `none`. -/
structure RawEvent where
  id : Option Nat := none
  eventName : Option String := none
  eventDescription : Option String := none
  startDateTime : Option String := none
  endDateTime : Option String := none
  eventLocation : Option EventLocation := none
  publishedFiles : List PubFile := []
  deriving DecidableEq

/-- Python truthiness of an optional integer (`None` and `0` are falsy). -/
def truthyNat : Option Nat → Bool
  | some n => n ≠ 0
  | none => false

/-- Decimal rendering of a natural number, as Python f-strings render ints. -/
def natDecimal (n : Nat) : String :=
  if n = 0 then "0"
  else String.mk (((Nat.digits 10 n).map (fun d => Char.ofNat (48 + d))).reverse)

theorem digitChar_inj (d1 d2 : Nat) (h1 : d1 < 10) (h2 : d2 < 10)
    (h : Char.ofNat (48 + d1) = Char.ofNat (48 + d2)) : d1 = d2 := by
  interval_cases d1 <;> interval_cases d2 <;> simp_all

theorem digitsMap_inj : ∀ l1 l2 : List Nat, (∀ d ∈ l1, d < 10) → (∀ d ∈ l2, d < 10) →
    l1.map (fun d => Char.ofNat (48 + d)) = l2.map (fun d => Char.ofNat (48 + d)) →
    l1 = l2 := by
  intro l1
  induction l1 with
  | nil =>
    intro l2 _ _ h
    rcases l2 with _ | ⟨d, t⟩
    · rfl
    · simp at h
  | cons d1 t1 ih =>
    intro l2 hb1 hb2 h
    rcases l2 with _ | ⟨d2, t2⟩
    · simp at h
    · simp only [List.map_cons, List.cons.injEq] at h
      have hd := digitChar_inj d1 d2 (hb1 d1 (by simp)) (hb2 d2 (by simp)) h.1
      have ht := ih t2 (fun d hd2 => hb1 d (by simp [hd2])) (fun d hd2 => hb2 d (by simp [hd2])) h.2
      rw [hd, ht]

theorem natDecimal_data_nonzero (n : Nat) (hn : n ≠ 0) :
    (natDecimal n).data = ((Nat.digits 10 n).map (fun d => Char.ofNat (48 + d))).reverse := by
  rw [natDecimal, if_neg hn]

theorem natDecimal_inj (m n : Nat) (h : natDecimal m = natDecimal n) : m = n := by
  have hdata := congrArg String.data h
  by_cases hm : m = 0 <;> by_cases hn : n = 0
  · rw [hm, hn]
  · exfalso
    rw [hm] at hdata
    rw [natDecimal_data_nonzero n hn] at hdata
    have hdig : Nat.digits 10 n = [0] := by
      have h2 := congrArg List.reverse hdata
      simp only [List.reverse_reverse] at h2
      rcases hd : Nat.digits 10 n with _ | ⟨d, rest⟩
      · rw [hd] at h2; simp [natDecimal] at h2
      · rw [hd] at h2
        simp only [natDecimal, if_pos rfl, List.map_cons] at h2
        rcases rest with _ | ⟨d2, r2⟩
        · simp only [List.map_nil] at h2
          have hd0 : d = 0 := by
            have hc : Char.ofNat (48 + d) = '0' := by
              have := h2.symm
              simp at this
              exact this
            have hdb : d < 10 := Nat.digits_lt_base (by norm_num) (by rw [hd]; simp)
            exact digitChar_inj d 0 hdb (by norm_num) (by simpa using hc)
          rw [hd0]
        · simp at h2
    have := Nat.ofDigits_digits 10 n
    rw [hdig] at this
    simp [Nat.ofDigits] at this
    exact hn this.symm
  · exfalso
    rw [hn] at hdata
    rw [natDecimal_data_nonzero m hm] at hdata
    have hdig : Nat.digits 10 m = [0] := by
      have h2 := congrArg List.reverse hdata
      simp only [List.reverse_reverse] at h2
      rcases hd : Nat.digits 10 m with _ | ⟨d, rest⟩
      · rw [hd] at h2; simp [natDecimal] at h2
      · rw [hd] at h2
        simp only [natDecimal, if_pos rfl, List.map_cons] at h2
        rcases rest with _ | ⟨d2, r2⟩
        · simp only [List.map_nil] at h2
          have hd0 : d = 0 := by
            have hc : Char.ofNat (48 + d) = '0' := by
              simp at h2
              exact h2
            have hdb : d < 10 := Nat.digits_lt_base (by norm_num) (by rw [hd]; simp)
            exact digitChar_inj d 0 hdb (by norm_num) (by simpa using hc)
          rw [hd0]
        · simp at h2
    have := Nat.ofDigits_digits 10 m
    rw [hdig] at this
    simp [Nat.ofDigits] at this
    exact hm this.symm
  · rw [natDecimal_data_nonzero m hm, natDecimal_data_nonzero n hn] at hdata
    have h2 := congrArg List.reverse hdata
    simp only [List.reverse_reverse] at h2
    have hdig := digitsMap_inj (Nat.digits 10 m) (Nat.digits 10 n)
      (fun d hd => Nat.digits_lt_base (by norm_num) hd)
      (fun d hd => Nat.digits_lt_base (by norm_num) hd) h2
    have := congrArg (Nat.ofDigits 10) hdig
    rwa [Nat.ofDigits_digits, Nat.ofDigits_digits] at this

/-- `CivicClerkMixin._parse_links`: one link per published file with a truthy
`fileId` (and a truthy event id), href built from the portal URL, event id
and file id; title `f.get("type") or "Document"`. -/
def civicParseLinks (portal : String) (ev : RawEvent) : List Link :=
  ev.publishedFiles.filterMap fun f =>
    match f.fileId, ev.id with
    | some fid, some eid =>
      if fid = 0 || eid = 0 then none
      else
        some ⟨portal ++ "/event/" ++ natDecimal eid ++ "/files/agenda/" ++ natDecimal fid,
          match f.ftype with
          | some t => if t = "" then "Document" else t
          | none => "Document"⟩
    | _, _ => none

/-- The truthy file ids of an event's published files, in order. -/
def truthyFileIds (files : List PubFile) : List Nat :=
  files.filterMap fun f =>
    match f.fileId with
    | some fid => if fid = 0 then none else some fid
    | none => none

theorem string_append_left_cancel (p a b : String) (h : p ++ a = p ++ b) : a = b := by
  rcases a with ⟨da⟩
  rcases b with ⟨db⟩
  have hd := congrArg String.data h
  simp only [String.data_append] at hd
  have := List.append_cancel_left hd
  exact congrArg String.mk this

theorem civicParseLinks_id_not_truthy (portal : String) (ev : RawEvent)
    (h : truthyNat ev.id = false) : civicParseLinks portal ev = [] := by
  rw [civicParseLinks]
  induction ev.publishedFiles with
  | nil => rfl
  | cons f rest ih =>
    rw [List.filterMap_cons]
    rcases hf : f.fileId with _ | fid
    · simp only [hf]
      exact ih
    · rcases hid : ev.id with _ | eid
      · simp only [hid] at ih
        simp only [hid, hf]
        exact ih
      · have heid : eid = 0 := by
          rw [hid] at h
          simp [truthyNat] at h
          exact h
        simpa [hf, hid, heid] using ih

theorem civic_hrefs_eq (portal : String) (ev : RawEvent) (eid : Nat)
    (hid : ev.id = some eid) (hne : eid ≠ 0) :
    (civicParseLinks portal ev).map Link.href =
      (truthyFileIds ev.publishedFiles).map
        (fun fid => portal ++ "/event/" ++ natDecimal eid ++ "/files/agenda/" ++ natDecimal fid) := by
  rw [civicParseLinks, truthyFileIds]
  induction ev.publishedFiles with
  | nil => simp
  | cons f rest ih =>
    rcases hf : f.fileId with _ | fid
    · simpa [List.filterMap_cons, hf, hid] using ih
    · by_cases hz : fid = 0
      · simpa [List.filterMap_cons, hf, hid, hz] using ih
      · simpa [List.filterMap_cons, hf, hid, hz, hne] using ih

/-- C5 (amended): the links list of a Meeting has pairwise-distinct hrefs
provided the source offers distinct URLs per role — for Legistar items, when
no two role fields carry the same URL; for CivicClerk events, when no two
published files carry the same (truthy) file id. The code itself performs no
deduplication by href, so records violating those side conditions produce
duplicate hrefs (see the counterexample). -/
theorem c5_links_nodup_amended :
    (∀ item : LegistarItem, (presentUrls item).Nodup →
        ((legistarParseLinks item).map Link.href).Nodup) ∧
      (∀ (portal : String) (ev : RawEvent), (truthyFileIds ev.publishedFiles).Nodup →
        ((civicParseLinks portal ev).map Link.href).Nodup) := by
  constructor
  · intro item h
    exact List.Nodup.sublist (legistar_hrefs_sublist item) h
  · intro portal ev h
    rcases hid : ev.id with _ | eid
    · rw [civicParseLinks_id_not_truthy portal ev (by rw [hid]; rfl)]
      simp
    · by_cases hz : eid = 0
      · rw [civicParseLinks_id_not_truthy portal ev (by rw [hid, hz]; decide)]
        simp
      · rw [civic_hrefs_eq portal ev eid hid hz]
        refine List.Nodup.map ?_ h
        intro a b hab
        have h2 := string_append_left_cancel _ _ _ hab
        exact natDecimal_inj a b h2

/-- Concrete inputs for the C5 amended witness. -/
def c5OkItem : LegistarItem :=
  { agenda := some (.link "Agenda" "https://x/a"),
    minutes := some (.link "Minutes" "https://x/m") }

/-- CivicClerk event with two distinct truthy file ids. -/
def c5OkEvent : RawEvent :=
  { id := some 7,
    publishedFiles := [{ fileId := some 3, ftype := some "Agenda" }, { fileId := some 12 }] }

theorem c5_links_nodup_amended_witness :
    ((legistarParseLinks c5OkItem).map Link.href).Nodup ∧
      ((civicParseLinks "https://p" c5OkEvent).map Link.href).Nodup :=
  ⟨c5_links_nodup_amended.1 c5OkItem (by decide),
    c5_links_nodup_amended.2 "https://p" c5OkEvent (by decide)⟩

/-! ## CivicClerk location (`_parse_location`, mixins/wycokck.py lines 172-198) -/

/-- `location_name` class attribute of `CivicClerkMixin`. -/
def civicLocationName : String := "Unified Government of Wyandotte County/Kansas City"

/-- `default_address` class attribute of `CivicClerkMixin`. -/
def civicDefaultAddress : String := "701 N 7th Street, Kansas City, KS 66101"

/-- Python truthiness filter on an optional string (`if part`). -/
def truthyStr : Option String → Option String
  | some s => if s = "" then none else some s
  | none => none

/-- `sep.join(parts)`. -/
def joinWith (sep : String) : List String → String
  | [] => ""
  | [x] => x
  | x :: rest => x ++ sep ++ joinWith sep rest

/-- `raw_event.get("eventLocation") or {}` for an absent/empty location. -/
def emptyEventLocation : EventLocation := {}

/-- The joined-and-stripped address assembled by
`CivicClerkMixin._parse_location` before the default-address fallback. -/
def civicAddressJoined (ev : RawEvent) : String :=
  let el := ev.eventLocation.getD emptyEventLocation
  let cityStateZip := joinWith ", " ([el.city, el.state, el.zipCode].filterMap truthyStr)
  pyStrip (joinWith " "
    (([el.address1.getD "", el.address2.getD "", cityStateZip]).filter (fun s => s != "")))

/-- `CivicClerkMixin._parse_location`. -/
def civicParseLocation (ev : RawEvent) : Location :=
  let address0 := civicAddressJoined ev
  ⟨civicLocationName, if address0 = "" then civicDefaultAddress else address0⟩

/-- C10: the CivicClerk location parser always returns the fixed name
"Unified Government of Wyandotte County/Kansas City" with a non-empty
address; when the event supplies no address1/address2/city/state/zipCode
component (or no eventLocation at all), the address is the configured
default "701 N 7th Street, Kansas City, KS 66101". The result's name is
never "Virtual Meeting": no virtual-meeting detection exists on this path. -/
theorem c10_civic_location :
    ∀ ev : RawEvent,
      (civicParseLocation ev).locName = civicLocationName ∧
        (civicParseLocation ev).address ≠ "" ∧
        (civicParseLocation ev).locName ≠ "Virtual Meeting" ∧
        ((ev.eventLocation.getD emptyEventLocation).address1.getD "" = "" →
          (ev.eventLocation.getD emptyEventLocation).address2.getD "" = "" →
          truthyStr (ev.eventLocation.getD emptyEventLocation).city = none →
          truthyStr (ev.eventLocation.getD emptyEventLocation).state = none →
          truthyStr (ev.eventLocation.getD emptyEventLocation).zipCode = none →
            (civicParseLocation ev).address = civicDefaultAddress) := by
  intro ev
  refine ⟨rfl, ?_, ?_, ?_⟩
  · by_cases h : civicAddressJoined ev = ""
    · simp [civicParseLocation, h]
      decide
    · simp [civicParseLocation, h]
  · intro hcon
    have hx : civicLocationName = "Virtual Meeting" := hcon
    exact absurd hx (by decide)
  · intro h1 h2 h3 h4 h5
    have hempty : civicAddressJoined ev = "" := by
      rw [civicAddressJoined]
      simp only [h1, h2, h3, h4, h5, List.filterMap_cons, List.filterMap_nil]
      decide
    simp [civicParseLocation, hempty]

/-- CivicClerk event whose location object is entirely empty. -/
def c10Event : RawEvent := { id := some 4, eventLocation := some {} }

theorem c10_civic_location_witness :
    (civicParseLocation c10Event).locName = civicLocationName ∧
      (civicParseLocation c10Event).address = civicDefaultAddress ∧
      (civicParseLocation c10Event).address ≠ "" :=
  ⟨(c10_civic_location c10Event).1,
    (c10_civic_location c10Event).2.2.2 (by decide) (by decide) (by decide) (by decide)
      (by decide),
    (c10_civic_location c10Event).2.1⟩

/-! ## ISO datetime parsing (`_parse_dt`, mixins/wycokck.py lines 216-227;
the copy in spiders/colgo_wycokck_bocc.py lines 122-133 is identical).

`datetime.fromisoformat` is embedded for the grammar
`YYYY-MM-DD[*HH[:MM[:SS[.f+]]][(+|-)HH:MM[:SS]]]` (`*` any single
character), with the calendar/clock validation the `datetime` constructor
performs; parse or validation failure is the `ValueError` path, i.e. `none`. -/

/-- A naive datetime (tzinfo stripped). -/
structure NaiveDT where
  year : Nat
  month : Nat
  day : Nat
  hour : Nat
  minute : Nat
  second : Nat
  deriving DecidableEq

/-- A parsed fixed UTC offset `(+|-)HH:MM[:SS]`. -/
structure TzOffset where
  neg : Bool
  oh : Nat
  om : Nat
  os : Nat
  deriving DecidableEq

/-- Two mandatory decimal digits. -/
def parse2Digits : List Char → Option (Nat × List Char)
  | c1 :: c2 :: t =>
    if c1.isDigit && c2.isDigit then
      some ((c1.toNat - 48) * 10 + (c2.toNat - 48), t)
    else none
  | _ => none

/-- Four mandatory decimal digits. -/
def parse4Digits (l : List Char) : Option (Nat × List Char) :=
  match parse2Digits l with
  | some (hi, r) =>
    match parse2Digits r with
    | some (lo, r2) => some (hi * 100 + lo, r2)
    | none => none
  | none => none

/-- Fractional seconds `('.'|',') digit+`, consumed and discarded. -/
def parseFrac : List Char → Option (List Char)
  | c :: t =>
    if c = '.' || c = ',' then
      if (t.takeWhile Char.isDigit).isEmpty then none
      else some (t.dropWhile Char.isDigit)
    else none
  | [] => none

/-- The time part `HH[:MM[:SS[.f+]]]`. -/
def parseTime (l : List Char) : Option (Nat × Nat × Nat × List Char) :=
  match parse2Digits l with
  | none => none
  | some (hh, r1) =>
    match r1 with
    | ':' :: r2 =>
      match parse2Digits r2 with
      | none => none
      | some (mm, r3) =>
        match r3 with
        | ':' :: r4 =>
          match parse2Digits r4 with
          | none => none
          | some (ss, r5) =>
            match parseFrac r5 with
            | some r6 => some (hh, mm, ss, r6)
            | none => some (hh, mm, ss, r5)
        | _ => some (hh, mm, 0, r3)
    | _ => some (hh, 0, 0, r1)

/-- The offset part `(+|-)HH:MM[:SS]`. -/
def parseOffset (l : List Char) : Option (TzOffset × List Char) :=
  match l with
  | c :: t =>
    if c = '+' || c = '-' then
      match parse2Digits t with
      | none => none
      | some (oh, r1) =>
        match r1 with
        | ':' :: r2 =>
          match parse2Digits r2 with
          | none => none
          | some (om, r3) =>
            match r3 with
            | ':' :: r4 =>
              match parse2Digits r4 with
              | none => none
              | some (os, r5) => some (⟨c = '-', oh, om, os⟩, r5)
            | _ => some (⟨c = '-', oh, om, 0⟩, r3)
        | _ => none
    else none
  | [] => none

/-- Gregorian leap-year test. -/
def isLeapYear (y : Nat) : Bool :=
  y % 4 = 0 && (y % 100 ≠ 0 || y % 400 = 0)

/-- Day count of a month. -/
def daysInMonth (y m : Nat) : Nat :=
  if m = 2 then (if isLeapYear y then 29 else 28)
  else if m = 4 || m = 6 || m = 9 || m = 11 then 30
  else 31

/-- The validation `datetime(...)` performs on its components. -/
def validNaive (d : NaiveDT) : Bool :=
  1 ≤ d.year && d.year ≤ 9999 && 1 ≤ d.month && d.month ≤ 12 &&
    1 ≤ d.day && d.day ≤ daysInMonth d.year d.month &&
    d.hour ≤ 23 && d.minute ≤ 59 && d.second ≤ 59

/-- A fixed offset must be strictly within 24 hours. -/
def validOffset : Option TzOffset → Bool
  | none => true
  | some o => o.oh * 3600 + o.om * 60 + o.os < 86400

/-- The grammar of `fromisoformat`, without validation. -/
def rawParseIso (l : List Char) : Option (NaiveDT × Option TzOffset) :=
  match parse4Digits l with
  | none => none
  | some (y, r1) =>
    match r1 with
    | '-' :: r2 =>
      match parse2Digits r2 with
      | none => none
      | some (mo, r3) =>
        match r3 with
        | '-' :: r4 =>
          match parse2Digits r4 with
          | none => none
          | some (d, r5) =>
            match r5 with
            | [] => some (⟨y, mo, d, 0, 0, 0⟩, none)
            | _ :: r6 =>
              match parseTime r6 with
              | none => none
              | some (hh, mm, ss, r7) =>
                match r7 with
                | [] => some (⟨y, mo, d, hh, mm, ss⟩, none)
                | _ =>
                  match parseOffset r7 with
                  | none => none
                  | some (off, r8) =>
                    if r8.isEmpty then some (⟨y, mo, d, hh, mm, ss⟩, some off) else none
        | _ => none
    | _ => none

/-- `datetime.fromisoformat`: grammar plus component validation. -/
def fromisoformat (s : String) : Option (NaiveDT × Option TzOffset) :=
  (rawParseIso s.data).bind fun p =>
    if validNaive p.1 && validOffset p.2 then some p else none

/-- `dt_str.replace("Z", "+00:00")` (replaces every occurrence of `Z`). -/
def replaceZL : List Char → List Char
  | [] => []
  | c :: t =>
    if c = 'Z' then '+' :: '0' :: '0' :: ':' :: '0' :: '0' :: replaceZL t
    else c :: replaceZL t

/-- `dt_str.replace("Z", "+00:00")` on strings. -/
def replaceZ (s : String) : String := String.mk (replaceZL s.data)

/-- `CivicClerkMixin._parse_dt`: `None`/empty input short-circuits to `None`;
otherwise the string (with `Z` rewritten to `+00:00`) is handed to
`fromisoformat`, the timezone is stripped from a successful parse, and a
`ValueError` is converted to `None`. -/
def parse_dt (dtStr : Option String) : Option NaiveDT :=
  dtStr.bind fun s =>
    if s = "" then none
    else (fromisoformat (replaceZ s)).map Prod.fst

theorem fromisoformat_valid (s : String) (dt : NaiveDT) (off : Option TzOffset)
    (h : fromisoformat s = some (dt, off)) : validNaive dt = true := by
  rw [fromisoformat] at h
  rcases Option.bind_eq_some.mp h with ⟨p, _, hf⟩
  by_cases hv : (validNaive p.1 && validOffset p.2) = true
  · rw [if_pos hv] at hf
    obtain rfl : p = (dt, off) := Option.some.inj hf
    simp only [Bool.and_eq_true] at hv
    exact hv.1
  · rw [if_neg hv] at hf
    exact absurd hf (by simp)

/-- C8: `_parse_dt` is total and fails closed — absent and empty inputs give
`none`; a parseable ISO string (trailing `Z` accepted as UTC, any offset
stripped) yields the naive wall-clock datetime; malformed strings (bad
shapes, bad months, bad calendar days) yield `none` instead of raising; and
any returned datetime carries validated components. -/
theorem c8_parse_dt_fail_closed :
    parse_dt none = none ∧
      parse_dt (some "") = none ∧
      parse_dt (some "2025-11-19T11:30:00Z") = some ⟨2025, 11, 19, 11, 30, 0⟩ ∧
      parse_dt (some "2025-11-19T06:30:00-05:00") = some ⟨2025, 11, 19, 6, 30, 0⟩ ∧
      parse_dt (some "not a date") = none ∧
      parse_dt (some "2025-13-01T00:00:00") = none ∧
      parse_dt (some "2025-02-30") = none ∧
      (∀ s d, parse_dt (some s) = some d → validNaive d = true) := by
  refine ⟨rfl, by decide, by decide, by decide, by decide, by decide, by decide, ?_⟩
  intro s d h
  rw [parse_dt] at h
  simp only [Option.some_bind] at h
  by_cases hs : s = ""
  · rw [if_pos hs] at h
    exact absurd h (by simp)
  · rw [if_neg hs] at h
    rcases hf : fromisoformat (replaceZ s) with _ | ⟨dt, off⟩
    · rw [hf] at h
      exact absurd h (by simp)
    · rw [hf] at h
      simp only [Option.map_some'] at h
      obtain rfl : dt = d := Option.some.inj h
      exact fromisoformat_valid _ _ _ hf

theorem c8_parse_dt_fail_closed_witness :
    validNaive ⟨2025, 11, 19, 11, 30, 0⟩ = true :=
  c8_parse_dt_fail_closed.2.2.2.2.2.2.2 "2025-11-19T11:30:00Z" ⟨2025, 11, 19, 11, 30, 0⟩
    c8_parse_dt_fail_closed.2.2.1

/-! ## Record emission (`parse_legistar`, mixins/kancit_missouricity.py lines
217-247, and `CivicClerkMixin.parse`, mixins/wycokck.py lines 105-139).

`legistar_start`, `legistar_source`, `_get_status` and `_get_id` live in the
external city-scrapers-core dependency, which is not part of this
repository: the first two are taken as parameters of the pipeline, the last
two are modelled from the spec. -/

/-- Comparable encoding of a naive datetime (all valid components fit the
radices used). -/
def dtKey (d : NaiveDT) : Nat :=
  ((((d.year * 13 + d.month) * 32 + d.day) * 24 + d.hour) * 60 + d.minute) * 60 + d.second

/-- Status of a meeting relative to "now". -/
inductive MeetingStatus where
  | passed
  | tentative
  deriving DecidableEq

/-- Modelled from the spec: `_get_status` is provided by the external
city-scrapers-core library (absent from src). Per §4.6, compare `start`
with "now": PASSED when start is at or before now, TENTATIVE otherwise; the
spec gives no rule for an absent start (it asserts such records are dropped
first), modelled as TENTATIVE. -/
def getStatusSpec (now : NaiveDT) (start : Option NaiveDT) : MeetingStatus :=
  match start with
  | none => .tentative
  | some s => if dtKey s ≤ dtKey now then .passed else .tentative

/-- Modelled from the spec: `_get_id` is provided by the external
city-scrapers-core library (absent from src). Per §4.6, it is derived
deterministically from (spider name, formatted start timestamp, title). -/
def getIdSpec (spiderName : String) (start : Option NaiveDT) (title : String) : String :=
  spiderName ++ "/" ++
    (match start with
     | some d =>
       natDecimal d.year ++ natDecimal d.month ++ natDecimal d.day ++
         natDecimal d.hour ++ natDecimal d.minute
     | none => "") ++ "/" ++ title

/-- A Meeting item assembled by the Legistar mixin (classification may be
`None`, the mixin's default). -/
structure LegistarMeeting where
  title : String
  description : String
  classification : Option Classification
  start : Option NaiveDT
  endTime : Option NaiveDT
  allDay : Bool
  timeNotes : String
  location : Location
  links : List Link
  source : String
  status : MeetingStatus
  mid : String
  deriving DecidableEq

/-- `KancitMissouricityMixin._get_event_title`. -/
def getEventTitle (event : LegistarItem) : String :=
  match event.name with
  | some (.link l _) => l
  | some (.ical _) => ""
  | some (.text s) => s
  | none => ""

/-- `KancitMissouricityMixin.parse_legistar`: filter by agency title, drop
events without a parseable start, assemble the Meeting. `legistarStart` and
`legistarSource` are the external library's `legistar_start` /
`legistar_source`. -/
def parseLegistar (legistarStart : LegistarItem → Option NaiveDT)
    (legistarSource : LegistarItem → String) (agencyFilter : String)
    (classif : Option Classification) (defaultLoc : Option Location)
    (spiderName : String) (now : NaiveDT) (events : List LegistarItem) :
    List LegistarMeeting :=
  events.filterMap fun event =>
    if getEventTitle event ≠ agencyFilter then none
    else
      match legistarStart event with
      | none => none
      | some st =>
        some
          { title := getEventTitle event
            description := ""
            classification := classif
            start := some st
            endTime := none
            allDay := false
            timeNotes := ""
            location := legistarParseLocation defaultLoc event
            links := legistarParseLinks event
            source := legistarSource event
            status := getStatusSpec now (some st)
            mid := getIdSpec spiderName (some st) (getEventTitle event) }

/-- A Meeting item assembled by the CivicClerk mixin. -/
structure CivicMeeting where
  title : String
  description : String
  classification : Classification
  start : Option NaiveDT
  endTime : Option NaiveDT
  allDay : Bool
  timeNotes : String
  location : Location
  links : List Link
  source : String
  status : MeetingStatus
  mid : String
  deriving DecidableEq

/-- `title.replace("()", "")`: left-to-right removal of empty parentheses. -/
def replaceEmptyParens : List Char → List Char
  | '(' :: ')' :: t => replaceEmptyParens t
  | c :: t => c :: replaceEmptyParens t
  | [] => []

/-- `CivicClerkMixin._parse_title`:
`raw_event.get("eventName") or self.agency`, empty parentheses removed,
stripped. -/
def civicParseTitle (agency : String) (raw : RawEvent) : String :=
  let t0 :=
    match raw.eventName with
    | some n => if n = "" then agency else n
    | none => agency
  pyStrip (String.mk (replaceEmptyParens t0.data))

/-- `CivicClerkMixin.parse` over the decoded events of one API response:
events without a truthy `id` are skipped; every other event yields a Meeting
whose `start`/`end` are the (possibly failed) datetime parses — there is no
guard dropping records whose start could not be parsed. -/
def civicParse (spiderName agency portal : String) (now : NaiveDT)
    (events : List RawEvent) : List CivicMeeting :=
  events.filterMap fun raw =>
    match raw.id with
    | none => none
    | some eid =>
      if eid = 0 then none
      else
        some
          { title := civicParseTitle agency raw
            description := raw.eventDescription.getD ""
            classification := civicParseClassification (civicParseTitle agency raw)
            start := parse_dt raw.startDateTime
            endTime := parse_dt raw.endDateTime
            allDay := false
            timeNotes := ""
            location := civicParseLocation raw
            links := civicParseLinks portal raw
            source := portal ++ "/event/" ++ natDecimal eid
            status := getStatusSpec now (parse_dt raw.startDateTime)
            mid := getIdSpec spiderName (parse_dt raw.startDateTime)
              (civicParseTitle agency raw) }

/-- A CivicClerk event with a truthy id and no parseable start. -/
def c1NoStartEvent : RawEvent := { id := some 5, eventName := some "Board Meeting" }

/-- A fixed "now" for counterexample runs. -/
def c1Now : NaiveDT := ⟨2026, 1, 20, 0, 0, 0⟩

/-- C1, as stated: false. The CivicClerk mixin's `parse` has no start guard:
an event with a truthy id but no parseable `startDateTime` still yields one
Meeting, whose start is absent. -/
theorem c1_counterexample :
    (civicParse "kancit_board_commissioners" "Board of Commissioners"
          "https://wycokck.portal.civicclerk.com" c1Now [c1NoStartEvent]).map
        CivicMeeting.start = [none] := by
  decide

/-- C1 (amended): the Legistar mixin's `parse_legistar` drops every event
whose start cannot be parsed, so each of its emitted meetings carries a
present start; the CivicClerk mixin's `parse`, by contrast, drops only
events without a truthy id and emits exactly one Meeting per remaining
event, whose start field is the (possibly absent) datetime parse of that
event's startDateTime. -/
theorem c1_start_presence_amended :
    (∀ (legistarStart : LegistarItem → Option NaiveDT)
        (legistarSource : LegistarItem → String) (agencyFilter : String)
        (classif : Option Classification) (defaultLoc : Option Location)
        (spiderName : String) (now : NaiveDT) (events : List LegistarItem),
        (parseLegistar legistarStart legistarSource agencyFilter classif defaultLoc
              spiderName now events).all
            (fun m => m.start.isSome) = true) ∧
      (∀ (spiderName agency portal : String) (now : NaiveDT) (events : List RawEvent),
        (civicParse spiderName agency portal now events).map CivicMeeting.start =
          (events.filter fun e => truthyNat e.id).map fun e => parse_dt e.startDateTime) := by
  constructor
  · intro lsf srcf af cl dl sn now events
    rw [List.all_eq_true]
    intro m hm
    rw [parseLegistar] at hm
    rcases List.mem_filterMap.mp hm with ⟨e, _, hfe⟩
    by_cases ht : getEventTitle e ≠ af
    · rw [if_pos ht] at hfe
      exact absurd hfe (by simp)
    · rw [if_neg ht] at hfe
      rcases hs : lsf e with _ | st
      · rw [hs] at hfe
        exact absurd hfe (by simp)
      · rw [hs] at hfe
        obtain rfl := Option.some.inj hfe
        rfl
  · intro sn ag p now events
    induction events with
    | nil => rfl
    | cons e rest ih =>
      simp only [civicParse] at ih ⊢
      rw [List.filterMap_cons, List.filter_cons]
      rcases e.id with _ | eid
      · simpa [truthyNat] using ih
      · by_cases hz : eid = 0
        · simpa [truthyNat, hz] using ih
        · simpa [truthyNat, hz] using ih
